import Mathlib

/-!
Verification development for the spreadsheet-to-program importer of the
iron-log repository (`netlify/functions/excel-import.ts`).

The importer is shallowly embedded: spreadsheet cells are `Cell` values
(absent, string, or numeric serial), rows are lists of cells, and every
function of the importer (field extractors, row classifier / program
builder, identity resolver, graph persister) is translated into a pure,
executable Lean function.  JavaScript string primitives used by the code
(`toLowerCase`, `trim`, `includes`, `startsWith`, `parseInt`, and the few
regular expressions the importer applies) are modelled character-for-
character on `List Char`; numeric cells are modelled as integers (the
importer only compares them and prints them, so the integer fragment of
JS numbers suffices) and `parseInt` is modelled in its radix-10 reading.
-/

namespace IronLog

/-- A spreadsheet cell as seen by the importer: `undefined`, a string, or a
numeric serial value. -/
inductive Cell where
  | empty : Cell
  | str : String → Cell
  | num : Int → Cell
deriving DecidableEq, Repr

/-- A row of the sheet, as produced by `sheet_to_json(sheet, {header: 1})`. -/
abbrev Row := List Cell

/-- `row[i]`: out-of-range access yields `undefined`. -/
def getCell (row : Row) (i : Nat) : Cell := row.getD i Cell.empty

/-- JavaScript truthiness test on a cell value: `undefined`, `""` and `0`
are falsy. -/
def isFalsy : Cell → Bool
  | Cell.empty => true
  | Cell.str s => s == ""
  | Cell.num n => n == 0

/-- `String(value || '')`: the stringification the importer applies to
cells (falsy cells become the empty string, numbers are printed in
decimal). -/
def cellToStrE : Cell → String
  | Cell.empty => ""
  | Cell.str s => s
  | Cell.num n => if n == 0 then "" else toString n

/-- `s.toLowerCase()` (ASCII fragment, which is all the importer's
keywords use). -/
def jsToLower (s : String) : String := String.mk (s.data.map Char.toLower)

/-- The list-level trim underlying `String.prototype.trim`. -/
def trimList (cs : List Char) : List Char :=
  ((cs.dropWhile Char.isWhitespace).reverse.dropWhile Char.isWhitespace).reverse

/-- `s.trim()`. -/
def jsTrim (s : String) : String := String.mk (trimList s.data)

/-- Substring test on character lists, leftmost scan: `haystack.includes(needle)`. -/
def containsSub (sub : List Char) : List Char → Bool
  | [] => sub.isEmpty
  | c :: t => sub.isPrefixOf (c :: t) || containsSub sub t

/-- `s.includes(sub)`. -/
def containsStr (s sub : String) : Bool := containsSub sub.data s.data

/-- Digit-string to number, radix 10 (`parseInt` on a digit run). -/
def digitsToNat (cs : List Char) : Nat :=
  cs.foldl (fun n c => n * 10 + (c.toNat - 48)) 0

/-- The leading digit run, if nonempty. -/
def leadNat (cs : List Char) : Option Nat :=
  let ds := cs.takeWhile Char.isDigit
  if ds.isEmpty then none else some (digitsToNat ds)

/-- `parseInt(s)` in its radix-10 reading: skip leading whitespace, an
optional sign, then the maximal digit prefix; `NaN` becomes `none`. -/
def jsParseInt (s : String) : Option Int :=
  let cs := s.data.dropWhile Char.isWhitespace
  match cs with
  | [] => none
  | c :: rest =>
    if c == '-' then (leadNat rest).map (fun n => -(n : Int))
    else if c == '+' then (leadNat rest).map (fun n => (n : Int))
    else (leadNat cs).map (fun n => (n : Int))

/-- The two dash characters accepted by the importer's range regexes. -/
def isDashChar (c : Char) : Bool := c == '-' || c == '–'

/-- Attempt of the regex `(\d+)\s*[-–]\s*(\d+)` anchored at the head of
the list (greedy digit runs; the pattern admits no backtracking that
could succeed where the greedy reading fails). -/
def matchRangeAt (cs : List Char) : Option (Nat × Nat) :=
  let d1 := cs.takeWhile Char.isDigit
  if d1.isEmpty then none else
  let r1 := (cs.dropWhile Char.isDigit).dropWhile Char.isWhitespace
  match r1 with
  | [] => none
  | c :: r2 =>
    if isDashChar c then
      let r3 := r2.dropWhile Char.isWhitespace
      let d2 := r3.takeWhile Char.isDigit
      if d2.isEmpty then none else some (digitsToNat d1, digitsToNat d2)
    else none

/-- Leftmost match of `(\d+)\s*[-–]\s*(\d+)` (the `str.match` search). -/
def rangeSearch : List Char → Option (Nat × Nat)
  | [] => none
  | c :: cs =>
    match matchRangeAt (c :: cs) with
    | some r => some r
    | none => rangeSearch cs

/-- Attempt of `(\d+)\s*[-–]?\s*(\d*)\s*min` anchored at the head,
returning the first captured integer. -/
def matchRestAt (cs : List Char) : Option Nat :=
  let d1 := cs.takeWhile Char.isDigit
  if d1.isEmpty then none else
  let r1 := (cs.dropWhile Char.isDigit).dropWhile Char.isWhitespace
  let r2 := match r1 with
            | [] => r1
            | c :: t => if isDashChar c then t else r1
  let r3 := (r2.dropWhile Char.isWhitespace).dropWhile Char.isDigit
  let r4 := r3.dropWhile Char.isWhitespace
  if ("min".data).isPrefixOf r4 then some (digitsToNat d1) else none

/-- Leftmost match of `(\d+)\s*[-–]?\s*(\d*)\s*min`. -/
def restSearch : List Char → Option Nat
  | [] => none
  | c :: cs =>
    match matchRestAt (c :: cs) with
    | some r => some r
    | none => restSearch cs

/-- Attempt of `(\d+)x` anchored at the head. -/
def matchFreqAt (cs : List Char) : Option Nat :=
  let d1 := cs.takeWhile Char.isDigit
  if d1.isEmpty then none else
  match cs.dropWhile Char.isDigit with
  | [] => none
  | c :: _ => if c == 'x' then some (digitsToNat d1) else none

/-- Leftmost match of `(\d+)x` (used on the sheet name). -/
def freqSearch : List Char → Option Nat
  | [] => none
  | c :: cs =>
    match matchFreqAt (c :: cs) with
    | some r => some r
    | none => freqSearch cs

/-- Leftmost match of `\d+` on a string (`colB.match(/\d+/)?.[0]`,
already parsed). -/
def firstNat (s : String) : Option Nat :=
  let cs := s.data.dropWhile (fun c => !c.isDigit)
  let ds := cs.takeWhile Char.isDigit
  if ds.isEmpty then none else some (digitsToNat ds)

/-! ## Field extractors and the exercise categorizer -/

/-- `CATEGORY_MAPPINGS`, in the source's definition (and hence iteration)
order. -/
def CATEGORY_MAPPINGS : List (String × String) :=
  [("squat", "Quads"), ("leg press", "Quads"), ("leg extension", "Quads"),
   ("lunge", "Quads"), ("leg curl", "Hamstrings"), ("rdl", "Hamstrings"),
   ("deadlift", "Hamstrings"), ("hip thrust", "Glutes"), ("glute", "Glutes"),
   ("calf", "Calves"), ("bench", "Chest"), ("chest press", "Chest"),
   ("incline", "Chest"), ("fly", "Chest"), ("pec deck", "Chest"),
   ("lat pulldown", "Back"), ("pull-up", "Back"), ("row", "Back"),
   ("pullover", "Back"), ("shrug", "Back"), ("lateral raise", "Shoulders"),
   ("shoulder press", "Shoulders"), ("rear delt", "Shoulders"),
   ("y-raise", "Shoulders"), ("curl", "Biceps"), ("triceps", "Triceps"),
   ("tricep", "Triceps"), ("kickback", "Triceps"), ("crunch", "Abs"),
   ("ab ", "Abs"), ("wrist", "Forearms"), ("dead hang", "Grip")]

/-- `categorizeExercise`: first keyword (in table order) contained in the
lower-cased name wins. -/
def categorizeExercise (name : String) : Option String :=
  (CATEGORY_MAPPINGS.find? (fun kv => containsStr (jsToLower name) kv.1)).map (fun kv => kv.2)

/-- `EXCEL_DATE_TO_REP_RANGE`: known Excel date serials patched back to
rep ranges. -/
def excelDateToRepRange (n : Int) : Option (Nat × Nat) :=
  if n == 45816 then some (6, 8)
  else if n == 45879 then some (10, 12)
  else if n == 45847 then some (8, 10)
  else if n == 45785 then some (4, 6)
  else if n == 45910 then some (12, 15)
  else none

/-- `parseRepRange`. -/
def parseRepRange (c : Cell) : Nat × Nat :=
  if isFalsy c then (8, 12) else
  match c with
  | Cell.num n =>
    match excelDateToRepRange n with
    | some r => r
    | none => if 1 ≤ n ∧ n ≤ 30 then (n.toNat, n.toNat) else (8, 12)
  | _ =>
    let cs := (cellToStrE c).data
    match rangeSearch cs with
    | some r => r
    | none =>
      if cs.all Char.isDigit && !cs.isEmpty then (digitsToNat cs, digitsToNat cs)
      else (8, 12)

/-- `parseWarmupSets`. -/
def parseWarmupSets (c : Cell) : Nat :=
  if isFalsy c then 0 else
  match rangeSearch (cellToStrE c).data with
  | some r => r.1
  | none =>
    match jsParseInt (cellToStrE c) with
    | some n => if 0 ≤ n ∧ n ≤ 5 then n.toNat else 0
    | none => 0

/-- Working-sets extraction, inlined in `addExerciseToWorkout` in the
source (`row[5]`, `parseInt`, accepted strictly between 0 and 10, default
2). -/
def parseWorkingSets (c : Cell) : Nat :=
  if isFalsy c then 2 else
  match jsParseInt (cellToStrE c) with
  | some n => if 0 < n ∧ n < 10 then n.toNat else 2
  | none => 2

/-- RIR extraction, inlined in `addExerciseToWorkout`: a numeric cell in
`[0, 4]`, otherwise absent. -/
def parseRir : Cell → Option Int
  | Cell.num n => if 0 ≤ n ∧ n ≤ 4 then some n else none
  | _ => none

/-- Rest extraction, inlined in `addExerciseToWorkout`: minutes matched by
`(\d+)\s*[-–]?\s*(\d*)\s*min` times 60, default 120 seconds. -/
def parseRestSeconds (c : Cell) : Nat :=
  match restSearch (cellToStrE c).data with
  | some m => m * 60
  | none => 120

/-- One substitution column qualifies when the cell is truthy, its trimmed
text is nonempty and its lower-cased text does not contain "see notes". -/
def subCellOk (c : Cell) : Bool :=
  !isFalsy c && jsTrim (cellToStrE c) != "" &&
    !containsStr (jsToLower (cellToStrE c)) "see notes"

/-! ## The parsed data model -/

/-- `ParsedExercise`. -/
structure ParsedExercise where
  name : String
  warmupSets : Nat
  workingSets : Nat
  repRangeMin : Nat
  repRangeMax : Nat
  rir : Option Int
  restSeconds : Nat
  notes : Option String
  substitutions : List String
  category : Option String
deriving DecidableEq, Repr

/-- `ParsedWorkout`. -/
structure ParsedWorkout where
  name : String
  dayNumber : Nat
  exercises : List ParsedExercise
deriving DecidableEq, Repr

/-- Week classification. -/
inductive WeekType where
  | intro | normal | deload
deriving DecidableEq, Repr

/-- `ParsedWeek`. -/
structure ParsedWeek where
  weekNumber : Nat
  name : String
  weekType : WeekType
  workouts : List ParsedWorkout
deriving DecidableEq, Repr

/-- `ParsedBlock`. -/
structure ParsedBlock where
  blockNumber : Nat
  name : String
  weeks : List ParsedWeek
deriving DecidableEq, Repr

/-- `ParsedProgram`. -/
structure ParsedProgram where
  name : String
  frequencyPerWeek : Nat
  source : String
  blocks : List ParsedBlock
deriving DecidableEq, Repr

/-- The prescription built by `addExerciseToWorkout` from the exercise
name and the row's cells (the pushed object; the `order` argument of the
source function is unused by it). -/
def mkParsedExercise (name : String) (row : Row) : ParsedExercise :=
  let rr := parseRepRange (getCell row 6)
  { name := name
    warmupSets := parseWarmupSets (getCell row 4)
    workingSets := parseWorkingSets (getCell row 5)
    repRangeMin := rr.1
    repRangeMax := rr.2
    rir := parseRir (getCell row 11)
    restSeconds := parseRestSeconds (getCell row 13)
    notes := if isFalsy (getCell row 16) then none
             else some (jsTrim (cellToStrE (getCell row 16)))
    substitutions :=
      (if subCellOk (getCell row 14) then [jsTrim (cellToStrE (getCell row 14))] else []) ++
      (if subCellOk (getCell row 15) then [jsTrim (cellToStrE (getCell row 15))] else [])
    category := categorizeExercise name }

/-! ## The program builder (row classifier + state machine)

The source keeps three mutable cursors (`currentBlock`, `currentWeek`,
`currentWorkout`) that always alias the last block of `program.blocks`,
the last week of that block and the last workout of that week: a cursor is
only ever (re)assigned to an object that is simultaneously pushed at the
end of its parent's list, and is reset to `null` when its parent changes.
The embedding therefore keeps the accumulated block list plus two
booleans recording whether the week/workout cursors are non-null, and
"mutation through a cursor" becomes an update of the last element. -/

/-- Replace the last element of a list by `f` of it. -/
def updLast (f : α → α) : List α → List α
  | [] => []
  | [a] => [f a]
  | a :: b :: t => a :: updLast f (b :: t)

/-- Parser state: accumulated blocks plus the nullness of the week and
workout cursors and the running `exerciseOrder` counter. -/
structure PState where
  blocks : List ParsedBlock
  hasWeek : Bool
  hasWorkout : Bool
  exOrder : Nat
deriving DecidableEq, Repr

/-- The initial state (`currentBlock = currentWeek = currentWorkout =
null`, `exerciseOrder = 0`). -/
def initState : PState := ⟨[], false, false, 0⟩

/-- `program.blocks.push(b); currentBlock = b; currentWeek = null;
currentWorkout = null`. -/
def pushBlock (b : ParsedBlock) (st : PState) : PState :=
  { st with blocks := st.blocks ++ [b], hasWeek := false, hasWorkout := false }

/-- `currentBlock.weeks.push(w); currentWeek = w; currentWorkout = null`. -/
def pushWeek (w : ParsedWeek) (st : PState) : PState :=
  { st with
    blocks := updLast (fun b => { b with weeks := b.weeks ++ [w] }) st.blocks
    hasWeek := true
    hasWorkout := false }

/-- `currentWeek.workouts.push(wo); currentWorkout = wo`. -/
def pushWorkout (wo : ParsedWorkout) (st : PState) : PState :=
  { st with
    blocks := updLast (fun b =>
      { b with weeks := updLast (fun w =>
          { w with workouts := w.workouts ++ [wo] }) b.weeks }) st.blocks
    hasWorkout := true }

/-- `currentWorkout.exercises.push(e)`. -/
def pushExercise (e : ParsedExercise) (st : PState) : PState :=
  { st with
    blocks := updLast (fun b =>
      { b with weeks := updLast (fun w =>
          { w with workouts := updLast (fun wo =>
              { wo with exercises := wo.exercises ++ [e] }) w.workouts }) b.weeks }) st.blocks }

/-- `currentBlock.weeks.length` (0 when no block is open). -/
def curBlockWeekCount (st : PState) : Nat :=
  ((st.blocks.getLast?).map (fun b => b.weeks.length)).getD 0

/-- `currentWeek.workouts.length` (0 when no week exists). -/
def curWeekWorkoutCount (st : PState) : Nat :=
  (((st.blocks.getLast?).bind (fun b => b.weeks.getLast?)).map
      (fun w => w.workouts.length)).getD 0

/-- The structural-label column of a row: `String(row[1] || '').trim()`. -/
def colBOf (row : Row) : String := jsTrim (cellToStrE (getCell row 1))

/-- The exercise-name column of a row: `String(row[2] || '').trim()`. -/
def colCOf (row : Row) : String := jsTrim (cellToStrE (getCell row 2))

/-- The week type and display name computed from the look-behind at the
raw previous row (`data[i-1][1]`, stringified and lower-cased but not
trimmed). -/
def weekTypeAndName (prev : Option Row) (colB : String) : WeekType × String :=
  match prev with
  | none => (WeekType.normal, colB)
  | some prow =>
    let prevB := jsToLower (cellToStrE (getCell prow 1))
    if containsStr prevB "intro" then (WeekType.intro, colB ++ " (Intro)")
    else if containsStr prevB "deload" then (WeekType.deload, colB ++ " (Deload)")
    else (WeekType.normal, colB)

/-- The fixed workout-header vocabulary. -/
def workoutNames : List String :=
  ["full body", "upper", "lower", "arms", "arms/delts", "push", "pull", "legs"]

/-- Noise rule: program-notes banners, copyright lines, warm-up-protocol
banners (tested on the lower-cased structural label). -/
def isNoiseRow (row : Row) : Bool :=
  let lowerB := jsToLower (colBOf row)
  containsStr lowerB "important program notes" ||
  containsStr lowerB "the min-max program" ||
  containsStr lowerB "copyright" ||
  containsStr lowerB "warm-up protocol"

/-- Header-skip rule: the spreadsheet's own column-header rows, tested on
the lower-cased exercise column. -/
def isHeaderRow (row : Row) : Bool :=
  let lowerC := jsToLower (colCOf row)
  lowerC == "exercise" || containsStr lowerC "tracking load" || lowerC == "load"

/-- Block-header rule. -/
def isBlockHeader (row : Row) : Bool :=
  containsStr (jsToLower (colBOf row)) "block" &&
  !containsStr (jsToLower (colBOf row)) "exercise"

/-- Week rule (header rows and standalone labels alike). -/
def isWeekLabel (row : Row) : Bool :=
  containsStr (jsToLower (colBOf row)) "week" &&
  !containsStr (jsToLower (colBOf row)) "per week" &&
  !containsStr (jsToLower (colBOf row)) "program notes" &&
  decide ((colBOf row).length < 50)

/-- Rest-day rule. -/
def isRestDay (row : Row) : Bool :=
  containsStr (jsToLower (colBOf row)) "rest day"

/-- Workout-header rule: the label equals or starts with one of the fixed
workout names. -/
def isWorkoutHeader (row : Row) : Bool :=
  workoutNames.any (fun w =>
    jsToLower (colBOf row) == w || w.data.isPrefixOf (jsToLower (colBOf row)).data)

/-- Exercise-row rule: nonempty exercise column, empty structural column,
a workout open, and no header keyword in the exercise column. -/
def isExerciseRow (row : Row) (st : PState) : Bool :=
  colCOf row != "" && colBOf row == "" && st.hasWorkout &&
  !containsStr (jsToLower (colCOf row)) "exercise" &&
  !containsStr (jsToLower (colCOf row)) "load"

/-- Auto-creation of "Block 1" when no block is open. -/
def autoBlock (st : PState) : PState :=
  if st.blocks.isEmpty then pushBlock ⟨1, "Block 1", []⟩ st else st

/-- The week pushed by the week-header branch (week number from the label
or the positional fallback, type and display name from the look-behind). -/
def mkWeekFromHeader (prev : Option Row) (colB : String) (st1 : PState) : PState :=
  pushWeek ⟨(firstNat colB).getD (curBlockWeekCount st1 + 1),
    (weekTypeAndName prev colB).2, (weekTypeAndName prev colB).1, []⟩ st1

/-- Auto-creation of "Week 1" (and "Block 1" if needed) when a workout
header arrives with no week open. -/
def autoWeek (st : PState) : PState :=
  if !st.hasWeek then pushWeek ⟨1, "Week 1", WeekType.normal, []⟩ (autoBlock st) else st

/-- Opening a workout from a workout-header row: day number is one more
than the current week's workout count; `exerciseOrder` resets to 0. -/
def startWorkout (colB : String) (st : PState) : PState :=
  { pushWorkout ⟨colB, curWeekWorkoutCount (autoWeek st) + 1, []⟩ (autoWeek st) with
    exOrder := 0 }

/-- One iteration of the row loop of `parseMinMaxProgram`: classify the
row (first rule wins) and apply its effect to the state.  `prev` is the
raw previous row of the sheet (`data[i-1]`), used only by the week-type
look-behind. -/
def processRow (prev : Option Row) (row : Row) (st : PState) : PState :=
  if row.isEmpty then st else
  if isNoiseRow row then st
  else if isHeaderRow row then st
  else if isBlockHeader row then
    pushBlock ⟨(firstNat (colBOf row)).getD (st.blocks.length + 1), colBOf row, []⟩ st
  else if isWeekLabel row then
    (if jsToLower (colCOf row) == "exercise" then
       mkWeekFromHeader prev (colBOf row) (autoBlock st)
     else autoBlock st)
  else if isRestDay row then st
  else if isWorkoutHeader row then
    (if colCOf row != "" && !containsStr (jsToLower (colCOf row)) "exercise" then
       pushExercise (mkParsedExercise (colCOf row) row)
         { startWorkout (colBOf row) st with exOrder := 1 }
     else startWorkout (colBOf row) st)
  else if isExerciseRow row st then
    pushExercise (mkParsedExercise (colCOf row) row) { st with exOrder := st.exOrder + 1 }
  else st

/-- The row loop: a single forward pass threading the raw previous row. -/
def parseRows (prev : Option Row) (rows : List Row) (st : PState) : PState :=
  match rows with
  | [] => st
  | r :: rest => parseRows (some r) rest (processRow prev r st)

/-- `parseMinMaxProgram`: fixed name and source, frequency seeded from the
`(\d+)x` pattern in the first sheet's name (default 4), blocks from the
row scan. -/
def parseMinMaxProgram (sheetName : String) (grid : List Row) : ParsedProgram :=
  { name := "Min-Max Program"
    frequencyPerWeek := (freqSearch sheetName.data).getD 4
    source := "Jeff Nippard"
    blocks := (parseRows none grid initState).blocks }

/-! ## Identity resolver

The handler collects all distinct lower-cased exercise names (primary and
substitution roles), looks the existing ones up in the exercise library,
stages one creation per missing name (recovering an original-cased
spelling by the tree walk of the source, whose `break` statements only
leave the innermost loop), and folds the created rows into the name→id
map.  JS `Map`s are modelled as association lists whose `set` replaces in
place; generated database ids are modelled as consecutive naturals. -/

/-- Association-list update with JS `Map.set` semantics: replace in place,
else append. -/
def aset [DecidableEq κ] : List (κ × α) → κ → α → List (κ × α)
  | [], k, v => [(k, v)]
  | (k₀, v₀) :: t, k, v => if k₀ = k then (k, v) :: t else (k₀, v₀) :: aset t k v

/-- Association-list lookup (`Map.get` / `Map.has`). -/
def aget [DecidableEq κ] : List (κ × α) → κ → Option α
  | [], _ => none
  | (k₀, v₀) :: t, k => if k₀ = k then some v₀ else aget t k

/-- JS `Set.add`: append if not already present. -/
def insertNew (l : List String) (s : String) : List String :=
  if s ∈ l then l else l ++ [s]

/-- JS `Set` built from a list: first occurrences, in order. -/
def dedupFirst (l : List String) : List String := l.foldl insertNew []

/-- All prescriptions of a parsed program, in tree order. -/
def exercisesOfP (p : ParsedProgram) : List ParsedExercise :=
  p.blocks.flatMap (fun b => b.weeks.flatMap (fun w =>
    w.workouts.flatMap (fun wo => wo.exercises)))

/-- `allNames`: the set of lower-cased names over primary and substitution
roles (`new Set([...allExerciseNames, ...allSubstitutionNames])`). -/
def allNamesOf (p : ParsedProgram) : List String :=
  dedupFirst ((exercisesOfP p).map (fun e => jsToLower e.name) ++
              (exercisesOfP p).flatMap (fun e => e.substitutions.map jsToLower))

/-- The name→(id, name) map: entries of the parsed names' map, keyed by
lower-cased name. -/
abbrev EMap := List (String × (Nat × String))

/-- The map seeded from the library query
`SELECT id, LOWER(name), name FROM exercises WHERE LOWER(name) = ANY(names)`.
The library is a list of (id, name) rows. -/
def mapFromLib (lib : List (Nat × String)) (names : List String) : EMap :=
  (lib.filter (fun e => names.contains (jsToLower e.2))).foldl
    (fun m e => aset m (jsToLower e.2) (e.1, e.2)) []

/-- The inner recovery loop over one workout's prescriptions: a primary
match returns immediately (the source's `break` leaves the exercise loop),
a substitution match updates the running candidate (its `break` only
leaves the substitution loop). -/
def origInWorkout (n : String) : List ParsedExercise → String → String
  | [], acc => acc
  | e :: rest, acc =>
    if jsToLower e.name == n then e.name
    else origInWorkout n rest
      (match e.substitutions.find? (fun s => jsToLower s == n) with
       | some s => s
       | none => acc)

/-- The original-cased spelling recovered for a missing lower-cased name:
the full tree walk of the source (outer loops never break, so later
workouts overwrite earlier candidates). -/
def originalNameFor (p : ParsedProgram) (n : String) : String :=
  p.blocks.foldl (fun acc b =>
    b.weeks.foldl (fun acc w =>
      w.workouts.foldl (fun acc wo => origInWorkout n wo.exercises acc) acc) acc) n

/-- `exercisesToCreate`: one (name, category) row per referenced
lower-cased name absent from the library map. -/
def exercisesToCreate (lib : List (Nat × String)) (p : ParsedProgram) :
    List (String × Option String) :=
  ((allNamesOf p).filter
      (fun n => (aget (mapFromLib lib (allNamesOf p)) n).isNone)).map
    (fun n => (originalNameFor p n, categorizeExercise (originalNameFor p n)))

/-- Folding the created rows (with their generated ids `nextId + i`) into
the map, keyed by the lower-cased created name (`RETURNING LOWER(name)`). -/
def addCreated (nextId : Nat) : List (String × Option String) → Nat → EMap → EMap
  | [], _, m => m
  | e :: rest, i, m => addCreated nextId rest (i + 1) (aset m (jsToLower e.1) (nextId + i, e.1))

/-- The name→id map after identity resolution. -/
def finalMap (lib : List (Nat × String)) (nextId : Nat) (p : ParsedProgram) : EMap :=
  addCreated nextId (exercisesToCreate lib p) 0 (mapFromLib lib (allNamesOf p))

/-! ## Graph persister

The relational writes, with generated ids modelled as the position of the
row in its batch insert. -/

/-- Row of `INSERT INTO programs`. -/
structure ProgramInsert where
  name : String
  description : String
  frequency_per_week : Nat
  source : String
  created_by : Option Nat
deriving DecidableEq, Repr

/-- The program row written by the handler. -/
def programInsert (p : ParsedProgram) (userId : Option Nat) : ProgramInsert :=
  ⟨p.name, "Imported from Excel", p.frequencyPerWeek, p.source, userId⟩

/-- Row of `INSERT INTO program_blocks`. -/
structure BlockInsert where
  program_id : Nat
  block_number : Nat
  name : String
  sort_order : Nat
deriving DecidableEq, Repr

/-- `blockInserts`: `sort_order` is set to the parsed `blockNumber`. -/
def blockInserts (pid : Nat) (p : ParsedProgram) : List BlockInsert :=
  p.blocks.map (fun b => ⟨pid, b.blockNumber, b.name, b.blockNumber⟩)

/-- Build a key→id map from the batch-returned rows, ids being row
positions. -/
def buildIdMapAux [DecidableEq κ] : List κ → Nat → List (κ × Nat) → List (κ × Nat)
  | [], _, m => m
  | k :: rest, i, m => buildIdMapAux rest (i + 1) (aset m k i)

/-- `Map` from insert keys to generated ids. -/
def buildIdMap [DecidableEq κ] (keys : List κ) : List (κ × Nat) :=
  buildIdMapAux keys 0 []

/-- `blockMap`: block_number → block id. -/
def blockMapOf (bis : List BlockInsert) : List (Nat × Nat) :=
  buildIdMap (bis.map (fun b => b.block_number))

/-- Row of `INSERT INTO block_weeks`. -/
structure WeekInsert where
  block_id : Nat
  week_number : Nat
  name : String
  week_type : WeekType
  sort_order : Nat
deriving DecidableEq, Repr

/-- `weekInserts`: `sort_order` is set to the parsed `weekNumber`. -/
def weekInserts (bm : List (Nat × Nat)) (p : ParsedProgram) : List WeekInsert :=
  p.blocks.flatMap (fun b =>
    let blockId := (aget bm b.blockNumber).getD 0
    b.weeks.map (fun w => ⟨blockId, w.weekNumber, w.name, w.weekType, w.weekNumber⟩))

/-- `weekMap`: (block id, week_number) → week id. -/
def weekMapOf (wis : List WeekInsert) : List ((Nat × Nat) × Nat) :=
  buildIdMap (wis.map (fun w => (w.block_id, w.week_number)))

/-- Row of `INSERT INTO workout_templates`. -/
structure WorkoutInsert where
  week_id : Nat
  name : String
  day_number : Nat
  sort_order : Nat
deriving DecidableEq, Repr

/-- `workoutInserts`: `sort_order` is set to the `dayNumber`. -/
def workoutInserts (bm : List (Nat × Nat)) (wm : List ((Nat × Nat) × Nat))
    (p : ParsedProgram) : List WorkoutInsert :=
  p.blocks.flatMap (fun b =>
    let blockId := (aget bm b.blockNumber).getD 0
    b.weeks.flatMap (fun wk =>
      let weekId := (aget wm (blockId, wk.weekNumber)).getD 0
      wk.workouts.map (fun wo => ⟨weekId, wo.name, wo.dayNumber, wo.dayNumber⟩)))

/-- `workoutMap`: (week id, day_number) → workout id. -/
def workoutMapOf (wos : List WorkoutInsert) : List ((Nat × Nat) × Nat) :=
  buildIdMap (wos.map (fun w => (w.week_id, w.day_number)))

/-- Row of `INSERT INTO template_exercises`. -/
structure TexInsert where
  workout_template_id : Nat
  exercise_id : Nat
  exercise_order : Nat
  warmup_sets : Nat
  working_sets : Nat
  rep_range_min : Nat
  rep_range_max : Nat
  rir : Option Int
  rest_seconds : Nat
  notes : Option String
deriving DecidableEq, Repr

/-- The template-exercise rows of one workout: the source's indexed loop,
pushing `exercise_order = i + 1` for every prescription whose name
resolves in the map. -/
def texRows (m : EMap) (wid : Nat) : Nat → List ParsedExercise → List TexInsert
  | _, [] => []
  | i, e :: rest =>
    match aget m (jsToLower e.name) with
    | some d =>
      ⟨wid, d.1, i + 1, e.warmupSets, e.workingSets, e.repRangeMin, e.repRangeMax,
       e.rir, e.restSeconds, e.notes⟩ :: texRows m wid (i + 1) rest
    | none => texRows m wid (i + 1) rest

/-- `templateExerciseInserts` over the whole tree. -/
def templateExerciseInserts (m : EMap) (bm : List (Nat × Nat))
    (wm km : List ((Nat × Nat) × Nat)) (p : ParsedProgram) : List TexInsert :=
  p.blocks.flatMap (fun b =>
    let blockId := (aget bm b.blockNumber).getD 0
    b.weeks.flatMap (fun wk =>
      let weekId := (aget wm (blockId, wk.weekNumber)).getD 0
      wk.workouts.flatMap (fun wo =>
        texRows m ((aget km (weekId, wo.dayNumber)).getD 0) 0 wo.exercises)))

/-- The substitution pairs collected in the same pass: for every resolved
prescription, one (primary id, substitute id) pair per resolved
substitution name. -/
def subPairsOfWorkout (m : EMap) (wo : ParsedWorkout) : List (Nat × Nat) :=
  wo.exercises.flatMap (fun e =>
    match aget m (jsToLower e.name) with
    | some d =>
      e.substitutions.filterMap (fun s => (aget m (jsToLower s)).map (fun sd => (d.1, sd.1)))
    | none => [])

/-- `substitutionPairs` over the whole tree. -/
def subPairs (m : EMap) (p : ParsedProgram) : List (Nat × Nat) :=
  p.blocks.flatMap (fun b => b.weeks.flatMap (fun w =>
    w.workouts.flatMap (fun wo => subPairsOfWorkout m wo)))

/-- The dedup step before the substitution insert: a JS `Map` keyed by the
pair itself (the source's `` `${primary}-${substitute}` `` string key,
unambiguous for fixed-width ids), whose values are read back off. -/
def dedupPairs (l : List (Nat × Nat)) : List (Nat × Nat) :=
  (l.foldl (fun m pr => aset m pr pr) []).map (fun kv => kv.2)

/-- `subsToInsert`: the deduplicated substitution rows. -/
def subsToInsert (m : EMap) (p : ParsedProgram) : List (Nat × Nat) :=
  dedupPairs (subPairs m p)

/-! ## Lemmas about the string model -/

theorem toNat_ofNat_valid {n : Nat} (h : n.isValidChar) : (Char.ofNat n).toNat = n := by
  simp [Char.ofNat, h, Char.ofNatAux, Char.toNat, UInt32.toNat, BitVec.toNat_ofNatLt]

theorem charToLower_idem (c : Char) : (c.toLower).toLower = c.toLower := by
  by_cases h : c.toNat ≥ 65 ∧ c.toNat ≤ 90
  · have hv : (c.toNat + 32).isValidChar := by
      constructor; omega
    have ht : (Char.ofNat (c.toNat + 32)).toNat = c.toNat + 32 := toNat_ofNat_valid hv
    simp only [Char.toLower]
    rw [if_pos h, if_neg]
    rw [ht]
    omega
  · simp only [Char.toLower]
    rw [if_neg h, if_neg h]

@[simp] theorem data_jsToLower (s : String) : (jsToLower s).data = s.data.map Char.toLower := rfl

theorem jsToLower_idem (s : String) : jsToLower (jsToLower s) = jsToLower s := by
  show String.mk ((s.data.map Char.toLower).map Char.toLower) = String.mk (s.data.map Char.toLower)
  congr 1
  induction s.data with
  | nil => rfl
  | cons c t ih => simp [ih, charToLower_idem]

theorem cellToStrE_falsy {c : Cell} (h : isFalsy c = true) : cellToStrE c = "" := by
  cases c <;> simp_all [isFalsy, cellToStrE]

theorem containsSub_iff {sub l : List Char} : containsSub sub l = true ↔ sub <:+: l := by
  induction l with
  | nil => simp [containsSub, List.isEmpty_iff]
  | cons c t ih =>
    simp only [containsSub, Bool.or_eq_true, List.isPrefixOf_iff_prefix, ih,
      List.infix_cons_iff]

theorem containsStr_trans {s a b : String} (h1 : containsStr s a = true)
    (h2 : containsStr a b = true) : containsStr s b = true := by
  rw [containsStr, containsSub_iff] at h1 h2 ⊢
  exact h2.trans h1

/-! ## Lemmas about `updLast` -/

theorem mem_updLast {f : α → α} :
    ∀ {l : List α} {a : α}, a ∈ updLast f l →
      a ∈ l.dropLast ∨ ∃ h : l ≠ [], a = f (l.getLast h)
  | [], a, h => absurd h (List.not_mem_nil a)
  | [x], a, h => by
    simp only [updLast, List.mem_singleton] at h
    exact Or.inr ⟨List.cons_ne_nil x [], h⟩
  | x :: y :: t, a, h => by
    simp only [updLast, List.mem_cons] at h
    rcases h with rfl | h
    · exact Or.inl (by simp)
    · rcases mem_updLast h with h | ⟨hne, rfl⟩
      · refine Or.inl ?_
        rw [List.dropLast_cons₂]
        exact List.mem_cons_of_mem x h
      · exact Or.inr ⟨List.cons_ne_nil x (y :: t), by
          rw [List.getLast_cons (List.cons_ne_nil y t)]⟩

theorem updLast_ne_nil {f : α → α} {l : List α} (h : l ≠ []) : updLast f l ≠ [] := by
  match l with
  | [x] => simp [updLast]
  | x :: y :: t => simp [updLast]

theorem getLast?_updLast (f : α → α) :
    ∀ l : List α, (updLast f l).getLast? = (l.getLast?).map f
  | [] => rfl
  | [x] => rfl
  | x :: y :: t => by
    have ih := getLast?_updLast f (y :: t)
    show (x :: updLast f (y :: t)).getLast? = ((x :: y :: t).getLast?).map f
    obtain ⟨z, zs, hz⟩ :=
      List.exists_cons_of_ne_nil (updLast_ne_nil (f := f) (List.cons_ne_nil y t))
    rw [hz, List.getLast?_cons_cons, ← hz, ih, List.getLast?_cons_cons]

/-! ## Lemmas about the association-list maps -/

theorem aget_aset_self [DecidableEq κ] (m : List (κ × α)) (k : κ) (v : α) :
    aget (aset m k v) k = some v := by
  induction m with
  | nil => simp [aset, aget]
  | cons kv t ih =>
    obtain ⟨k₀, v₀⟩ := kv
    by_cases h : k₀ = k <;> simp [aset, aget, h, ih]

theorem aget_aset_ne [DecidableEq κ] (m : List (κ × α)) (k k' : κ) (v : α)
    (h : k' ≠ k) : aget (aset m k v) k' = aget m k' := by
  have h' : ¬k = k' := fun hh => h hh.symm
  induction m with
  | nil => simp [aset, aget, h']
  | cons kv t ih =>
    obtain ⟨k₀, v₀⟩ := kv
    by_cases h0 : k₀ = k
    · subst h0
      simp [aset, aget, h']
    · by_cases h1 : k₀ = k' <;> simp [aset, aget, h0, h1, ih, h]

theorem isSome_aget_aset [DecidableEq κ] {m : List (κ × α)} {k' : κ} (k : κ) (v : α)
    (h : (aget m k').isSome) : (aget (aset m k v) k').isSome := by
  by_cases he : k' = k
  · subst he; simp [aget_aset_self]
  · rwa [aget_aset_ne m k k' v he]

theorem keys_aset [DecidableEq κ] (m : List (κ × α)) (k : κ) (v : α) :
    (aset m k v).map Prod.fst =
      if k ∈ m.map Prod.fst then m.map Prod.fst else m.map Prod.fst ++ [k] := by
  induction m with
  | nil => simp [aset]
  | cons kv t ih =>
    obtain ⟨k₀, v₀⟩ := kv
    by_cases h0 : k₀ = k
    · subst h0
      simp [aset]
    · have hne : ¬k = k₀ := fun hh => h0 hh.symm
      simp only [aset, if_neg h0, List.map_cons, ih, List.mem_cons]
      by_cases h1 : k ∈ t.map Prod.fst
      · simp [h1, hne]
      · simp [h1, hne]

theorem mem_keys_aset [DecidableEq κ] {m : List (κ × α)} {k x : κ} {v : α}
    (h : x ∈ (aset m k v).map Prod.fst) : x = k ∨ x ∈ m.map Prod.fst := by
  rw [keys_aset] at h
  by_cases h1 : k ∈ m.map Prod.fst
  · rw [if_pos h1] at h
    exact Or.inr h
  · rw [if_neg h1, List.mem_append, List.mem_singleton] at h
    tauto

theorem nodup_keys_aset [DecidableEq κ] {m : List (κ × α)}
    (h : (m.map Prod.fst).Nodup) (k : κ) (v : α) :
    ((aset m k v).map Prod.fst).Nodup := by
  rw [keys_aset]
  by_cases h1 : k ∈ m.map Prod.fst
  · rwa [if_pos h1]
  · rw [if_neg h1]
    simp [List.nodup_append, h, h1]

theorem isSome_aget_iff_mem_keys [DecidableEq κ] (m : List (κ × α)) (k : κ) :
    (aget m k).isSome ↔ k ∈ m.map Prod.fst := by
  induction m with
  | nil => simp [aget]
  | cons kv t ih =>
    obtain ⟨k₀, v₀⟩ := kv
    by_cases h : k₀ = k
    · subst h
      simp [aget]
    · have hne : ¬k = k₀ := fun hh => h hh.symm
      simp only [aget, if_neg h, ih, List.map_cons, List.mem_cons]
      tauto

/-! ## Lemmas about the JS-set model -/

theorem mem_insertNew {l : List String} {s x : String} :
    x ∈ insertNew l s ↔ x ∈ l ∨ x = s := by
  unfold insertNew
  split
  · rename_i h
    constructor
    · exact Or.inl
    · rintro (hx | rfl)
      · exact hx
      · exact h
  · simp

theorem nodup_insertNew {l : List String} (h : l.Nodup) (s : String) :
    (insertNew l s).Nodup := by
  unfold insertNew
  split
  · exact h
  · rename_i hs
    simpa [List.nodup_append] using ⟨h, fun hmem => hs hmem⟩

theorem mem_foldl_insertNew :
    ∀ (l : List String) (acc : List String) (x : String),
      x ∈ l.foldl insertNew acc ↔ x ∈ acc ∨ x ∈ l
  | [], acc, x => by simp
  | s :: t, acc, x => by
    rw [List.foldl_cons, mem_foldl_insertNew t, mem_insertNew]
    simp only [List.mem_cons]
    tauto

theorem nodup_foldl_insertNew :
    ∀ (l : List String) {acc : List String}, acc.Nodup → (l.foldl insertNew acc).Nodup
  | [], _, h => h
  | s :: t, acc, h => by
    rw [List.foldl_cons]
    exact nodup_foldl_insertNew t (nodup_insertNew h s)

theorem mem_dedupFirst {l : List String} {x : String} : x ∈ dedupFirst l ↔ x ∈ l := by
  rw [dedupFirst, mem_foldl_insertNew]
  simp

theorem nodup_dedupFirst (l : List String) : (dedupFirst l).Nodup :=
  nodup_foldl_insertNew l List.nodup_nil

/-! ## Identity-resolution lemmas -/

theorem foldl_preserve {P : β → Prop} (f : β → α → β) :
    ∀ (l : List α) {init : β}, P init → (∀ b a, a ∈ l → P b → P (f b a)) →
      P (l.foldl f init)
  | [], _, h, _ => h
  | a :: t, init, h, hstep =>
    foldl_preserve f t (hstep init a (by simp) h)
      (fun b x hx hb => hstep b x (List.mem_cons_of_mem a hx) hb)

theorem mem_exercisesOfP {p : ParsedProgram} {b : ParsedBlock} {w : ParsedWeek}
    {wo : ParsedWorkout} {e : ParsedExercise} (hb : b ∈ p.blocks)
    (hw : w ∈ b.weeks) (hwo : wo ∈ w.workouts) (he : e ∈ wo.exercises) :
    e ∈ exercisesOfP p := by
  simp only [exercisesOfP, List.mem_flatMap]
  exact ⟨b, hb, w, hw, wo, hwo, he⟩

theorem primary_mem_allNames {p : ParsedProgram} {e : ParsedExercise}
    (he : e ∈ exercisesOfP p) : jsToLower e.name ∈ allNamesOf p := by
  rw [allNamesOf, mem_dedupFirst, List.mem_append]
  exact Or.inl (List.mem_map_of_mem _ he)

theorem sub_mem_allNames {p : ParsedProgram} {e : ParsedExercise} {s : String}
    (he : e ∈ exercisesOfP p) (hs : s ∈ e.substitutions) :
    jsToLower s ∈ allNamesOf p := by
  rw [allNamesOf, mem_dedupFirst, List.mem_append]
  refine Or.inr ?_
  rw [List.mem_flatMap]
  exact ⟨e, he, List.mem_map_of_mem _ hs⟩

theorem lower_fixed_of_mem_allNames {p : ParsedProgram} {n : String}
    (h : n ∈ allNamesOf p) : jsToLower n = n := by
  rw [allNamesOf, mem_dedupFirst, List.mem_append] at h
  rcases h with h | h
  · obtain ⟨e, _, rfl⟩ := List.mem_map.mp h
    exact jsToLower_idem _
  · rw [List.mem_flatMap] at h
    obtain ⟨e, _, hs⟩ := h
    obtain ⟨s, _, rfl⟩ := List.mem_map.mp hs
    exact jsToLower_idem _

theorem origInWorkout_lower {n : String} :
    ∀ (exs : List ParsedExercise) (acc : String), jsToLower acc = n →
      jsToLower (origInWorkout n exs acc) = n
  | [], _, h => h
  | e :: rest, acc, h => by
    unfold origInWorkout
    split
    · rename_i hb
      exact eq_of_beq hb
    · cases hf : e.substitutions.find? (fun s => jsToLower s == n) with
      | none => exact origInWorkout_lower rest acc h
      | some s =>
        have hp := List.find?_some hf
        exact origInWorkout_lower rest s (eq_of_beq hp)

theorem originalNameFor_lower {p : ParsedProgram} {n : String}
    (hn : jsToLower n = n) : jsToLower (originalNameFor p n) = n := by
  unfold originalNameFor
  refine foldl_preserve (P := fun acc => jsToLower acc = n) _ p.blocks hn
    (fun acc b _ hb => ?_)
  refine foldl_preserve (P := fun acc => jsToLower acc = n) _ b.weeks hb
    (fun acc w _ hw => ?_)
  refine foldl_preserve (P := fun acc => jsToLower acc = n) _ w.workouts hw
    (fun acc wo _ hwo => ?_)
  exact origInWorkout_lower wo.exercises acc hwo

theorem isSome_foldl_aset_of_isSome [DecidableEq κ] {g : β → κ} {v : β → α} :
    ∀ (l : List β) (m : List (κ × α)) (k : κ), (aget m k).isSome →
      (aget (l.foldl (fun m e => aset m (g e) (v e)) m) k).isSome
  | [], _, _, hk => hk
  | e :: t, m, k, hk =>
    isSome_foldl_aset_of_isSome t _ k (isSome_aget_aset _ _ hk)

theorem isSome_foldl_aset_of_mem [DecidableEq κ] {g : β → κ} {v : β → α} :
    ∀ (l : List β) (m : List (κ × α)) (x : β), x ∈ l →
      (aget (l.foldl (fun m e => aset m (g e) (v e)) m) (g x)).isSome
  | [], _, x, hx => absurd hx (List.not_mem_nil x)
  | e :: t, m, x, hx => by
    rw [List.foldl_cons]
    rcases List.mem_cons.mp hx with rfl | hx
    · exact isSome_foldl_aset_of_isSome t _ _ (by simp [aget_aset_self])
    · exact isSome_foldl_aset_of_mem t _ x hx

theorem nodup_keys_foldl_aset [DecidableEq κ] {g : β → κ} {v : β → α} :
    ∀ (l : List β) (m : List (κ × α)), ((m.map Prod.fst).Nodup) →
      ((l.foldl (fun m e => aset m (g e) (v e)) m).map Prod.fst).Nodup
  | [], _, hm => hm
  | e :: t, m, hm => nodup_keys_foldl_aset t _ (nodup_keys_aset hm _ _)

theorem isSome_aget_addCreated_of_isSome {d : Nat} :
    ∀ (l : List (String × Option String)) (i : Nat) (m : EMap) (k : String),
      (aget m k).isSome → (aget (addCreated d l i m) k).isSome
  | [], _, _, _, h => h
  | e :: t, i, m, k, h =>
    isSome_aget_addCreated_of_isSome t _ _ k (isSome_aget_aset _ _ h)

theorem isSome_aget_addCreated_of_mem {d : Nat} :
    ∀ (l : List (String × Option String)) (i : Nat) (m : EMap)
      {x : String × Option String}, x ∈ l →
      (aget (addCreated d l i m) (jsToLower x.1)).isSome
  | [], _, _, x, hx => absurd hx (List.not_mem_nil x)
  | e :: t, i, m, x, hx => by
    unfold addCreated
    rcases List.mem_cons.mp hx with rfl | hx
    · exact isSome_aget_addCreated_of_isSome t _ _ _ (by simp [aget_aset_self])
    · exact isSome_aget_addCreated_of_mem t _ _ hx

theorem nodup_keys_addCreated {d : Nat} :
    ∀ (l : List (String × Option String)) (i : Nat) {m : EMap},
      (m.map Prod.fst).Nodup → ((addCreated d l i m).map Prod.fst).Nodup
  | [], _, _, h => h
  | e :: t, i, m, h => nodup_keys_addCreated t _ (nodup_keys_aset h _ _)

theorem nodup_keys_mapFromLib (lib : List (Nat × String)) (names : List String) :
    ((mapFromLib lib names).map Prod.fst).Nodup :=
  nodup_keys_foldl_aset _ _ List.nodup_nil

theorem nodup_keys_finalMap (lib : List (Nat × String)) (nextId : Nat)
    (p : ParsedProgram) : ((finalMap lib nextId p).map Prod.fst).Nodup :=
  nodup_keys_addCreated _ _ (nodup_keys_mapFromLib lib (allNamesOf p))

theorem isSome_finalMap_of_mem_allNames {lib : List (Nat × String)} {nextId : Nat}
    {p : ParsedProgram} {n : String} (h : n ∈ allNamesOf p) :
    (aget (finalMap lib nextId p) n).isSome := by
  by_cases hm : (aget (mapFromLib lib (allNamesOf p)) n).isSome
  · exact isSome_aget_addCreated_of_isSome _ _ _ _ hm
  · have hfil : n ∈ (allNamesOf p).filter
        (fun n => (aget (mapFromLib lib (allNamesOf p)) n).isNone) := by
      rw [List.mem_filter]
      refine ⟨h, ?_⟩
      rw [Option.isNone_iff_eq_none]
      exact Option.not_isSome_iff_eq_none.mp hm
    have hmem : (originalNameFor p n, categorizeExercise (originalNameFor p n)) ∈
        exercisesToCreate lib p := by
      unfold exercisesToCreate
      exact List.mem_map_of_mem _ hfil
    have := isSome_aget_addCreated_of_mem (d := nextId)
      (exercisesToCreate lib p) 0 (mapFromLib lib (allNamesOf p)) hmem
    rwa [originalNameFor_lower (lower_fixed_of_mem_allNames h)] at this

theorem nodup_toCreate_lowers (lib : List (Nat × String)) (p : ParsedProgram) :
    ((exercisesToCreate lib p).map (fun e => jsToLower e.1)).Nodup := by
  unfold exercisesToCreate
  rw [List.map_map]
  have heq : ((allNamesOf p).filter
      (fun n => (aget (mapFromLib lib (allNamesOf p)) n).isNone)).map
        ((fun e : String × Option String => jsToLower e.1) ∘
          (fun n => (originalNameFor p n, categorizeExercise (originalNameFor p n)))) =
      ((allNamesOf p).filter
        (fun n => (aget (mapFromLib lib (allNamesOf p)) n).isNone)).map id := by
    apply List.map_congr_left
    intro n hn
    have hna : n ∈ allNamesOf p := (List.mem_filter.mp hn).1
    simpa using originalNameFor_lower (lower_fixed_of_mem_allNames hna)
  rw [heq, List.map_id]
  exact (nodup_dedupFirst _).filter _

theorem toCreate_not_in_lib {lib : List (Nat × String)} {p : ParsedProgram}
    {e : String × Option String} (he : e ∈ exercisesToCreate lib p)
    {d : Nat × String} (hd : d ∈ lib) : jsToLower d.2 ≠ jsToLower e.1 := by
  unfold exercisesToCreate at he
  obtain ⟨n, hn, rfl⟩ := List.mem_map.mp he
  rw [List.mem_filter] at hn
  obtain ⟨hna, hnone⟩ := hn
  rw [originalNameFor_lower (lower_fixed_of_mem_allNames hna)]
  intro hcontra
  have hfil : d ∈ lib.filter (fun e => (allNamesOf p).contains (jsToLower e.2)) := by
    rw [List.mem_filter]
    refine ⟨hd, ?_⟩
    rw [hcontra]
    exact List.elem_eq_true_of_mem hna
  have : (aget (mapFromLib lib (allNamesOf p)) (jsToLower d.2)).isSome :=
    isSome_foldl_aset_of_mem _ _ d hfil
  rw [hcontra] at this
  simp_all

/-! ## Parser invariants

Two facts are established about every state the row loop can reach:
within every week the workouts' day numbers are `1, 2, …, n` in arrival
order, and every week is the auto-created `Week 1` of type `normal` (the
week-header branch of the classifier requires the exercise-column text to
equal "exercise", which the earlier header-skip rule has already consumed,
so that branch is unreachable). -/

/-- The workouts of a list carry day numbers `k, k+1, …` in order. -/
def daysFrom : Nat → List ParsedWorkout → Prop
  | _, [] => True
  | k, wo :: rest => wo.dayNumber = k ∧ daysFrom (k + 1) rest

theorem daysFrom_append {x : ParsedWorkout} :
    ∀ (l : List ParsedWorkout) (k : Nat), daysFrom k l →
      x.dayNumber = k + l.length → daysFrom k (l ++ [x])
  | [], k, _, hx => ⟨by simpa using hx, trivial⟩
  | wo :: t, k, h, hx =>
    ⟨h.1, daysFrom_append t (k + 1) h.2 (by rw [hx, List.length_cons]; omega)⟩

theorem daysFrom_updLast {f : ParsedWorkout → ParsedWorkout}
    (hf : ∀ wo, (f wo).dayNumber = wo.dayNumber) :
    ∀ (l : List ParsedWorkout) (k : Nat), daysFrom k l → daysFrom k (updLast f l)
  | [], _, h => h
  | [x], k, h => ⟨by rw [hf]; exact h.1, trivial⟩
  | x :: y :: t, k, h => ⟨h.1, daysFrom_updLast hf (y :: t) (k + 1) h.2⟩

theorem daysFrom_map_eq : ∀ (l : List ParsedWorkout) (k : Nat), daysFrom k l →
    l.map (fun wo => wo.dayNumber) = List.range' k l.length
  | [], _, _ => rfl
  | wo :: t, k, h => by
    rw [List.map_cons, daysFrom_map_eq t (k + 1) h.2, List.length_cons,
      List.range'_succ, h.1]

/-- Every week the loop ever creates: the auto-created "Week 1", normal,
with day numbers `1..n` in arrival order. -/
def WeekOk (w : ParsedWeek) : Prop :=
  w.weekNumber = 1 ∧ w.name = "Week 1" ∧ w.weekType = WeekType.normal ∧
    daysFrom 1 w.workouts

/-- The state invariant. -/
def StOk (st : PState) : Prop := ∀ b ∈ st.blocks, ∀ w ∈ b.weeks, WeekOk w

theorem StOk_exOrder {st : PState} (h : StOk st) (k : Nat) :
    StOk { st with exOrder := k } := h

theorem StOk_pushBlock {st : PState} (h : StOk st) (k : Nat) (name : String) :
    StOk (pushBlock ⟨k, name, []⟩ st) := by
  intro b hb w hw
  rcases List.mem_append.mp hb with hb | hb
  · exact h b hb w hw
  · rw [List.mem_singleton] at hb
    subst hb
    simp at hw

theorem StOk_pushWeek {st : PState} {w0 : ParsedWeek} (h : StOk st)
    (hw0 : WeekOk w0) : StOk (pushWeek w0 st) := by
  intro b hb w hw
  rcases mem_updLast hb with hb | ⟨hne, rfl⟩
  · exact h b ((List.dropLast_prefix st.blocks).subset hb) w hw
  · rcases List.mem_append.mp hw with hw | hw
    · exact h _ (List.getLast_mem hne) w hw
    · rw [List.mem_singleton] at hw
      subst hw
      exact hw0

theorem StOk_pushWorkout {st : PState} (h : StOk st) (name : String) :
    StOk (pushWorkout ⟨name, curWeekWorkoutCount st + 1, []⟩ st) := by
  intro b hb w hw
  rcases mem_updLast hb with hb | ⟨hne, rfl⟩
  · exact h b ((List.dropLast_prefix st.blocks).subset hb) w hw
  · rcases mem_updLast hw with hw | ⟨hne2, rfl⟩
    · exact h _ (List.getLast_mem hne) w ((List.dropLast_prefix _).subset hw)
    · have hwk := h _ (List.getLast_mem hne) _ (List.getLast_mem hne2)
      refine ⟨hwk.1, hwk.2.1, hwk.2.2.1, ?_⟩
      apply daysFrom_append _ 1 hwk.2.2.2
      show curWeekWorkoutCount st + 1 = _
      have hcount : curWeekWorkoutCount st =
          (((st.blocks.getLast hne).weeks.getLast hne2).workouts).length := by
        unfold curWeekWorkoutCount
        rw [List.getLast?_eq_getLast st.blocks hne]
        simp [List.getLast?_eq_getLast _ hne2]
      rw [hcount]
      omega

theorem StOk_pushExercise {st : PState} (h : StOk st) (e : ParsedExercise) :
    StOk (pushExercise e st) := by
  intro b hb w hw
  rcases mem_updLast hb with hb | ⟨hne, rfl⟩
  · exact h b ((List.dropLast_prefix st.blocks).subset hb) w hw
  · rcases mem_updLast hw with hw | ⟨hne2, rfl⟩
    · exact h _ (List.getLast_mem hne) w ((List.dropLast_prefix _).subset hw)
    · have hwk := h _ (List.getLast_mem hne) _ (List.getLast_mem hne2)
      exact ⟨hwk.1, hwk.2.1, hwk.2.2.1,
        daysFrom_updLast
          (f := fun wo => { wo with exercises := wo.exercises ++ [e] })
          (fun wo => rfl) _ 1 hwk.2.2.2⟩

theorem StOk_autoBlock {st : PState} (h : StOk st) : StOk (autoBlock st) := by
  unfold autoBlock
  split
  · exact StOk_pushBlock h _ _
  · exact h

theorem StOk_autoWeek {st : PState} (h : StOk st) : StOk (autoWeek st) := by
  unfold autoWeek
  split
  · exact StOk_pushWeek (StOk_autoBlock h) ⟨rfl, rfl, rfl, trivial⟩
  · exact h

theorem StOk_startWorkout {st : PState} (h : StOk st) (colB : String) :
    StOk (startWorkout colB st) :=
  StOk_pushWorkout (StOk_autoWeek h) colB

theorem StOk_processRow (prev : Option Row) (row : Row) {st : PState}
    (h : StOk st) : StOk (processRow prev row st) := by
  unfold processRow
  split
  · exact h
  · split
    · exact h
    · split
      · exact h
      · split
        · exact StOk_pushBlock h _ _
        · split
          · -- week branch: the inner "exercise" test is dead, the
            -- header-skip has already consumed such rows
            rename_i hEmpty hNoise hHdr hBlk hWeek
            split
            · rename_i hEx
              exact absurd (by simp [isHeaderRow, hEx] : isHeaderRow row = true) hHdr
            · exact StOk_autoBlock h
          · split
            · exact h
            · split
              · split
                · exact StOk_pushExercise (StOk_startWorkout h _) _
                · exact StOk_startWorkout h _
              · split
                · exact StOk_pushExercise h _
                · exact h

theorem StOk_parseRows :
    ∀ (rows : List Row) (prev : Option Row) {st : PState},
      StOk st → StOk (parseRows prev rows st)
  | [], _, _, h => h
  | r :: rest, prev, _, h => StOk_parseRows rest (some r) (StOk_processRow prev r h)

/-- Every week of a parse result satisfies the week invariant. -/
theorem weekOk_parse (sheet : String) (grid : List Row) :
    ∀ b ∈ (parseMinMaxProgram sheet grid).blocks, ∀ w ∈ b.weeks, WeekOk w := by
  intro b hb w hw
  have h0 : StOk initState := fun b hb => absurd hb (List.not_mem_nil b)
  exact StOk_parseRows grid none h0 b hb w hw

/-- The workout the `currentWorkout` cursor aliases: the last workout of
the last week of the last block. -/
def lastWorkout? (st : PState) : Option ParsedWorkout :=
  ((st.blocks.getLast?).bind (fun b => b.weeks.getLast?)).bind
    (fun w => w.workouts.getLast?)

theorem lastWorkout?_pushExercise (e : ParsedExercise) (st : PState) :
    lastWorkout? (pushExercise e st) =
      (lastWorkout? st).map (fun wo => { wo with exercises := wo.exercises ++ [e] }) := by
  unfold lastWorkout? pushExercise
  show ((updLast _ st.blocks).getLast?.bind _).bind _ = _
  rw [getLast?_updLast]
  cases st.blocks.getLast? with
  | none => rfl
  | some b =>
    simp only [Option.map_some', Option.some_bind]
    show ((updLast _ b.weeks).getLast?.bind _) = _
    rw [getLast?_updLast]
    cases b.weeks.getLast? with
    | none => rfl
    | some w =>
      simp only [Option.map_some', Option.some_bind]
      show (updLast _ w.workouts).getLast? = _
      rw [getLast?_updLast]

/-- Total number of workouts accumulated in a state. -/
def workoutCount (st : PState) : Nat :=
  (st.blocks.map (fun b => (b.weeks.map (fun w => w.workouts.length)).sum)).sum

theorem workoutCount_pushBlock (st : PState) (k : Nat) (name : String) :
    workoutCount (pushBlock ⟨k, name, []⟩ st) = workoutCount st := by
  unfold workoutCount pushBlock
  simp

theorem workoutCount_autoBlock (st : PState) :
    workoutCount (autoBlock st) = workoutCount st := by
  unfold autoBlock
  split
  · exact workoutCount_pushBlock st _ _
  · rfl

/-- A rest-day row never adds a workout, whatever else of the label may
match an earlier rule. -/
theorem restDay_no_workout (prev : Option Row) (row : Row) (st : PState)
    (hRest : isRestDay row = true) :
    workoutCount (processRow prev row st) = workoutCount st := by
  unfold processRow
  split
  · rfl
  · split
    · rfl
    · split
      · rfl
      · split
        · exact workoutCount_pushBlock st _ _
        · split
          · rename_i hEmpty hNoise hHdr hBlk hWeek
            split
            · rename_i hEx
              exact absurd (by simp [isHeaderRow, hEx] : isHeaderRow row = true) hHdr
            · exact workoutCount_autoBlock st
          · rfl

/-- A rest-day row whose label matches neither the block nor the week rule
leaves the whole parser state unchanged. -/
theorem restDay_skip (prev : Option Row) (row : Row) (st : PState)
    (hRest : isRestDay row = true)
    (hBlk : containsStr (jsToLower (colBOf row)) "block" = false)
    (hWk : containsStr (jsToLower (colBOf row)) "week" = false) :
    processRow prev row st = st := by
  unfold processRow
  split
  · rfl
  · split
    · rfl
    · split
      · rfl
      · split
        · rename_i hB
          rw [isBlockHeader, Bool.and_eq_true] at hB
          rw [hBlk] at hB
          exact absurd hB.1 (by simp)
        · split
          · rename_i hW
            rw [isWeekLabel, Bool.and_eq_true, Bool.and_eq_true, Bool.and_eq_true] at hW
            rw [hWk] at hW
            exact absurd hW.1.1.1 (by simp)
          · rfl

/-- On a row with an empty structural label, a nonempty exercise column
free of header keywords, and an open workout, the loop runs the
exercise-row rule: the prescription is appended to the current workout. -/
theorem exerciseRow_processRow (prev : Option Row) (row : Row) (st : PState)
    (hB : colBOf row = "") (hC : colCOf row ≠ "")
    (hEx : containsStr (jsToLower (colCOf row)) "exercise" = false)
    (hLd : containsStr (jsToLower (colCOf row)) "load" = false)
    (hW : st.hasWorkout = true) :
    processRow prev row st =
      pushExercise (mkParsedExercise (colCOf row) row)
        { st with exOrder := st.exOrder + 1 } := by
  have hrow : row.isEmpty = false := by
    cases row with
    | nil => exact absurd (by decide : colCOf ([] : Row) = "") hC
    | cons c t => rfl
  have hnoise : isNoiseRow row = false := by
    simp only [isNoiseRow]
    rw [hB]
    decide
  have h1 : (jsToLower (colCOf row) == "exercise") = false := by
    cases hbe : (jsToLower (colCOf row) == "exercise")
    · rfl
    · have heq := eq_of_beq hbe
      rw [heq] at hEx
      exact absurd hEx (by decide)
  have h2 : containsStr (jsToLower (colCOf row)) "tracking load" = false := by
    cases hbe : containsStr (jsToLower (colCOf row)) "tracking load"
    · rfl
    · have hld := containsStr_trans hbe
        (by decide : containsStr "tracking load" "load" = true)
      rw [hLd] at hld
      exact absurd hld (by decide)
  have h3 : (jsToLower (colCOf row) == "load") = false := by
    cases hbe : (jsToLower (colCOf row) == "load")
    · rfl
    · have heq := eq_of_beq hbe
      rw [heq] at hLd
      exact absurd hLd (by decide)
  have hhdr : isHeaderRow row = false := by
    simp only [isHeaderRow]
    rw [h1, h2, h3]
    rfl
  have hblk : isBlockHeader row = false := by
    simp only [isBlockHeader]
    rw [hB]
    decide
  have hweek : isWeekLabel row = false := by
    simp only [isWeekLabel]
    rw [hB]
    decide
  have hrest : isRestDay row = false := by
    simp only [isRestDay]
    rw [hB]
    decide
  have hwo : isWorkoutHeader row = false := by
    simp only [isWorkoutHeader]
    rw [hB]
    decide
  have hex : isExerciseRow row st = true := by
    simp only [isExerciseRow]
    rw [hB, hW, hEx, hLd]
    simp [bne_iff_ne, hC]
  simp only [processRow, hrow, hnoise, hhdr, hblk, hweek, hrest, hwo, hex]
  simp

/-! ## Persister lemmas -/

theorem blockInserts_sort (pid : Nat) (p : ParsedProgram) :
    ∀ bi ∈ blockInserts pid p, bi.sort_order = bi.block_number := by
  intro bi hbi
  obtain ⟨b, _, rfl⟩ := List.mem_map.mp hbi
  rfl

theorem weekInserts_sort (bm : List (Nat × Nat)) (p : ParsedProgram) :
    ∀ wi ∈ weekInserts bm p, wi.sort_order = wi.week_number := by
  intro wi hwi
  rw [weekInserts, List.mem_flatMap] at hwi
  obtain ⟨b, _, hwi⟩ := hwi
  obtain ⟨w, _, rfl⟩ := List.mem_map.mp hwi
  rfl

theorem workoutInserts_sort (bm : List (Nat × Nat)) (wm : List ((Nat × Nat) × Nat))
    (p : ParsedProgram) :
    ∀ wi ∈ workoutInserts bm wm p, wi.sort_order = wi.day_number := by
  intro wi hwi
  rw [workoutInserts, List.mem_flatMap] at hwi
  obtain ⟨b, _, hwi⟩ := hwi
  rw [List.mem_flatMap] at hwi
  obtain ⟨wk, _, hwi⟩ := hwi
  obtain ⟨wo, _, rfl⟩ := List.mem_map.mp hwi
  rfl

theorem texRows_orders (m : EMap) (wid : Nat) :
    ∀ (exs : List ParsedExercise) (i : Nat),
      (∀ e ∈ exs, (aget m (jsToLower e.name)).isSome) →
      (texRows m wid i exs).map (fun t => t.exercise_order) =
        List.range' (i + 1) exs.length
  | [], _, _ => rfl
  | e :: rest, i, hall => by
    obtain ⟨d, hd⟩ := Option.isSome_iff_exists.mp (hall e (by simp))
    unfold texRows
    rw [hd]
    rw [List.map_cons, texRows_orders m wid rest (i + 1)
      (fun x hx => hall x (List.mem_cons_of_mem e hx)),
      List.length_cons, List.range'_succ]

theorem mem_aset [DecidableEq κ] {k : κ} {v : α} {e : κ × α} :
    ∀ {m : List (κ × α)}, e ∈ aset m k v → e = (k, v) ∨ e ∈ m
  | [], h => by simpa [aset] using h
  | (k₀, v₀) :: t, h => by
    by_cases h0 : k₀ = k
    · simp only [aset, if_pos h0] at h
      rcases List.mem_cons.mp h with h | h
      · exact Or.inl h
      · exact Or.inr (List.mem_cons_of_mem _ h)
    · simp only [aset, if_neg h0] at h
      rcases List.mem_cons.mp h with h | h
      · exact Or.inr (h ▸ List.mem_cons_self _ _)
      · rcases mem_aset h with h | h
        · exact Or.inl h
        · exact Or.inr (List.mem_cons_of_mem _ h)

/-- Entries of the substitution-dedup map always satisfy value = key. -/
theorem dedup_fold_entries (l : List (Nat × Nat)) :
    ∀ (m : List ((Nat × Nat) × (Nat × Nat))),
      (∀ e ∈ m, e.2 = e.1) →
      ∀ e ∈ l.foldl (fun m pr => aset m pr pr) m, e.2 = e.1 := by
  intro m hm
  refine foldl_preserve
    (P := fun (mm : List ((Nat × Nat) × (Nat × Nat))) => ∀ e ∈ mm, e.2 = e.1)
    _ l hm (fun mm pr _ hmm e he => ?_)
  rcases mem_aset he with rfl | he
  · rfl
  · exact hmm e he

/-- Entry values of the substitution-dedup map come from the pair list. -/
theorem dedup_fold_values (l : List (Nat × Nat)) :
    ∀ (m : List ((Nat × Nat) × (Nat × Nat))),
      (∀ e ∈ m, e.2 ∈ l) →
      ∀ e ∈ l.foldl (fun m pr => aset m pr pr) m, e.2 ∈ l := by
  intro m hm
  refine foldl_preserve
    (P := fun (mm : List ((Nat × Nat) × (Nat × Nat))) => ∀ e ∈ mm, e.2 ∈ l)
    _ l hm (fun mm pr hpr hmm e he => ?_)
  rcases mem_aset he with rfl | he
  · exact hpr
  · exact hmm e he

theorem nodup_dedupPairs (l : List (Nat × Nat)) : (dedupPairs l).Nodup := by
  unfold dedupPairs
  have hids := dedup_fold_entries l [] (by simp)
  have hkeys : ((l.foldl (fun m pr => aset m pr pr) []).map Prod.fst).Nodup :=
    nodup_keys_foldl_aset (g := fun pr => pr) (v := fun pr => pr) l [] List.nodup_nil
  have heq : (l.foldl (fun m pr => aset m pr pr) []).map (fun kv => kv.2) =
      (l.foldl (fun m pr => aset m pr pr) []).map Prod.fst := by
    apply List.map_congr_left
    intro e he
    exact hids e he
  rw [heq]
  exact hkeys

theorem mem_dedupPairs {l : List (Nat × Nat)} {pr : Nat × Nat} :
    pr ∈ dedupPairs l ↔ pr ∈ l := by
  unfold dedupPairs
  constructor
  · intro h
    obtain ⟨e, he, rfl⟩ := List.mem_map.mp h
    exact dedup_fold_values l [] (by simp) e he
  · intro h
    have hs : (aget (l.foldl (fun m pr => aset m pr pr) []) pr).isSome :=
      isSome_foldl_aset_of_mem (g := fun pr => pr) (v := fun pr => pr) l [] pr h
    rw [isSome_aget_iff_mem_keys] at hs
    obtain ⟨e, he, hfst⟩ := List.mem_map.mp hs
    have := dedup_fold_entries l [] (by simp) e he
    rw [List.mem_map]
    exact ⟨e, he, by rw [this, hfst]⟩

/-! ## Extractor bounds -/

theorem parseWorkingSets_bounds (c : Cell) :
    1 ≤ parseWorkingSets c ∧ parseWorkingSets c ≤ 9 := by
  unfold parseWorkingSets
  split
  · exact ⟨by decide, by decide⟩
  · cases hj : jsParseInt (cellToStrE c) with
    | none => exact ⟨by decide, by decide⟩
    | some n =>
      show (1 ≤ if 0 < n ∧ n < 10 then n.toNat else 2) ∧
        (if 0 < n ∧ n < 10 then n.toNat else 2) ≤ 9
      split_ifs with h
      · constructor <;> omega
      · exact ⟨by decide, by decide⟩

theorem parseRir_bounds (c : Cell) :
    ∀ r, parseRir c = some r → 0 ≤ r ∧ r ≤ 4 := by
  intro r h
  cases c with
  | empty => simp [parseRir] at h
  | str s => simp [parseRir] at h
  | num n =>
    unfold parseRir at h
    rw [show (match Cell.num n with
        | Cell.num n => if 0 ≤ n ∧ n ≤ 4 then some n else none
        | _ => none) = (if 0 ≤ n ∧ n ≤ 4 then some n else none) from rfl] at h
    split_ifs at h with hcond
    cases h
    exact hcond

theorem parseRestSeconds_default (c : Cell)
    (h : restSearch (cellToStrE c).data = none) : parseRestSeconds c = 120 := by
  unfold parseRestSeconds
  rw [h]

/-! ## Concrete fixtures used by counterexamples and witnesses -/

/-- A workbook referencing "Bench Press" in three casings. -/
def gridC1 : List Row :=
  [[Cell.empty, Cell.str "Upper", Cell.str "Bench Press"],
   [Cell.empty, Cell.empty, Cell.str "bench press"],
   [Cell.empty, Cell.empty, Cell.str "BENCH PRESS"]]

/-- A workbook whose single block is labelled "Block 7". -/
def gridC2 : List Row :=
  [[Cell.empty, Cell.str "Block 7"],
   [Cell.empty, Cell.str "Upper", Cell.str "Squat"]]

/-- A workbook whose prescription's substitution resolves to the
prescription's own exercise ("Bench Press" substituted by "bench press"). -/
def gridC3 : List Row :=
  [[Cell.empty, Cell.str "Upper", Cell.str "Bench Press",
    Cell.empty, Cell.empty, Cell.empty, Cell.empty, Cell.empty, Cell.empty,
    Cell.empty, Cell.empty, Cell.empty, Cell.empty, Cell.empty,
    Cell.str "bench press"]]

/-- A label row "Intro Week" followed by a week-header row "Week 1" with
the exercise marker in the adjacent column. -/
def gridC4 : List Row :=
  [[Cell.empty, Cell.str "Intro Week"],
   [Cell.empty, Cell.str "Week 1", Cell.str "Exercise"]]

/-- A workbook with one workout header row (auto-creating its week). -/
def gridC4w : List Row := [[Cell.empty, Cell.str "Upper"]]

/-- A workout-header row whose rep-range cell reads "12-8" and whose RIR
cell is 2; the rest cell matches no minutes pattern. -/
def rowC6 : Row :=
  [Cell.empty, Cell.str "Upper", Cell.str "Squat", Cell.empty, Cell.empty,
   Cell.empty, Cell.str "12-8", Cell.empty, Cell.empty, Cell.empty,
   Cell.empty, Cell.num 2, Cell.empty, Cell.str "whenever"]

/-- A one-row workbook around `rowC6`. -/
def gridC6 : List Row := [rowC6]

/-- A row with a note in the structural column and an exercise name in the
exercise column. -/
def rowC7 : Row := [Cell.empty, Cell.str "xnote", Cell.str "Squat"]

/-- Workout header followed by `rowC7`. -/
def gridC7 : List Row := [[Cell.empty, Cell.str "Upper"], rowC7]

/-- The state after the "Upper" workout header opened a workout. -/
def stC7 : PState := processRow none [Cell.empty, Cell.str "Upper"] initState

/-- A label that matches both the block rule and the rest-day wording. -/
def rowC8 : Row := [Cell.empty, Cell.str "Block 1 rest day"]

/-- A plain rest-day label. -/
def rowC8b : Row := [Cell.empty, Cell.str "Rest Day"]

/-! ## The claims -/

/-- C1: after identity resolution, the name-to-id map has exactly one
entry per lower-cased name and covers every name referenced as a primary
or substitution name anywhere in the parsed tree; at most one new
Exercise row is staged per lower-cased name, and only for names absent
from the persisted library — so "Bench Press" / "bench press" /
"BENCH PRESS" yield exactly one Exercise row. -/
theorem C1_identity_resolution (lib : List (Nat × String)) (nextId : Nat)
    (p : ParsedProgram) :
    ((finalMap lib nextId p).map Prod.fst).Nodup ∧
    (∀ n ∈ allNamesOf p, (aget (finalMap lib nextId p) n).isSome = true) ∧
    (∀ b ∈ p.blocks, ∀ w ∈ b.weeks, ∀ wo ∈ w.workouts, ∀ e ∈ wo.exercises,
      jsToLower e.name ∈ allNamesOf p ∧
      ∀ s ∈ e.substitutions, jsToLower s ∈ allNamesOf p) ∧
    ((exercisesToCreate lib p).map (fun e => jsToLower e.1)).Nodup ∧
    (∀ e ∈ exercisesToCreate lib p, ∀ d ∈ lib, jsToLower d.2 ≠ jsToLower e.1) := by
  refine ⟨nodup_keys_finalMap lib nextId p,
    fun n hn => isSome_finalMap_of_mem_allNames hn,
    fun b hb w hw wo hwo e he =>
      ⟨primary_mem_allNames (mem_exercisesOfP hb hw hwo he),
       fun s hs => sub_mem_allNames (mem_exercisesOfP hb hw hwo he) hs⟩,
    nodup_toCreate_lowers lib p,
    fun e he d hd => toCreate_not_in_lib he hd⟩

/-- C1 witness: the three-casing workbook resolves "bench press" to an id
and stages exactly one created Exercise row. -/
theorem C1_identity_resolution_witness :
    (aget (finalMap [] 0 (parseMinMaxProgram "Sheet1" gridC1)) "bench press").isSome
      = true ∧
    exercisesToCreate [] (parseMinMaxProgram "Sheet1" gridC1) =
      [("Bench Press", some "Chest")] :=
  ⟨(C1_identity_resolution [] 0 (parseMinMaxProgram "Sheet1" gridC1)).2.1
      "bench press" (by decide),
   by decide⟩

/-- C2 counterexample: the persisted block rows of the "Block 7" workbook
carry `sort_order = 7` for the unique (position-0) block, so block
`sort_order` is neither the 0-based nor the 1-based position within the
parent: it is the spreadsheet-derived block number. -/
theorem C2_sort_order_cex :
    ¬((blockInserts 0 (parseMinMaxProgram "Sheet1" gridC2)).map
          (fun b => b.sort_order) =
        List.range (blockInserts 0 (parseMinMaxProgram "Sheet1" gridC2)).length ∨
      (blockInserts 0 (parseMinMaxProgram "Sheet1" gridC2)).map
          (fun b => b.sort_order) =
        (List.range
            (blockInserts 0 (parseMinMaxProgram "Sheet1" gridC2)).length).map
          (fun i => i + 1)) := by
  decide

/-- C2 (amended): block and week rows are persisted with `sort_order`
equal to the parsed `block_number` / `week_number` (spreadsheet-derived
for blocks), while workout rows get `sort_order = day_number` and parsing
makes day numbers the 1-based arrival positions `1..n` within each week;
template-exercise rows get `exercise_order` equal to the 1-based arrival
position within their workout once every name resolves. -/
theorem C2_sort_order_amended :
    (∀ (pid : Nat) (p : ParsedProgram),
      ∀ bi ∈ blockInserts pid p, bi.sort_order = bi.block_number) ∧
    (∀ (bm : List (Nat × Nat)) (p : ParsedProgram),
      ∀ wi ∈ weekInserts bm p, wi.sort_order = wi.week_number) ∧
    (∀ (bm : List (Nat × Nat)) (wm : List ((Nat × Nat) × Nat)) (p : ParsedProgram),
      ∀ wi ∈ workoutInserts bm wm p, wi.sort_order = wi.day_number) ∧
    (∀ (sheet : String) (grid : List Row),
      ∀ b ∈ (parseMinMaxProgram sheet grid).blocks, ∀ w ∈ b.weeks,
        w.workouts.map (fun wo => wo.dayNumber) = List.range' 1 w.workouts.length) ∧
    (∀ (lib : List (Nat × String)) (nextId wid : Nat) (p : ParsedProgram),
      ∀ b ∈ p.blocks, ∀ w ∈ b.weeks, ∀ wo ∈ w.workouts,
        (texRows (finalMap lib nextId p) wid 0 wo.exercises).map
            (fun t => t.exercise_order) =
          List.range' 1 wo.exercises.length) := by
  refine ⟨blockInserts_sort, weekInserts_sort, workoutInserts_sort,
    fun sheet grid b hb w hw => ?_, fun lib nextId wid p b hb w hw wo hwo => ?_⟩
  · exact daysFrom_map_eq _ 1 (weekOk_parse sheet grid b hb w hw).2.2.2
  · exact texRows_orders _ wid wo.exercises 0
      (fun e he => isSome_finalMap_of_mem_allNames
        (primary_mem_allNames (mem_exercisesOfP hb hw hwo he)))

/-- C2 witness: the "Block 7" block insert has sort_order equal to its
block number. -/
theorem C2_sort_order_amended_witness :
    (⟨0, 7, "Block 7", 7⟩ : BlockInsert).sort_order =
      (⟨0, 7, "Block 7", 7⟩ : BlockInsert).block_number :=
  C2_sort_order_amended.1 0 (parseMinMaxProgram "Sheet1" gridC2)
    ⟨0, 7, "Block 7", 7⟩ (by decide)

/-- C3 counterexample: when a prescription's primary name and its
substitution name resolve to the same exercise id, the submitted
substitution rows do contain a self-pair — the claim's "never contains a
self-substitution pair" is false. -/
theorem C3_substitution_self_pair_cex :
    ¬(∀ pr ∈ subsToInsert (finalMap [] 0 (parseMinMaxProgram "Sheet1" gridC3))
          (parseMinMaxProgram "Sheet1" gridC3), pr.1 ≠ pr.2) := by
  decide

/-- C3 (amended): the submitted substitution rows contain each
(primary id, substitute id) pair at most once and are exactly the
collected pairs as a set; a self-pair (x, x) is submitted (once) when the
primary and a substitution name resolve to the same id — no guard drops
it. -/
theorem C3_substitution_dedup_amended (m : EMap) (p : ParsedProgram) :
    (subsToInsert m p).Nodup ∧
    (∀ pr : Nat × Nat, pr ∈ subsToInsert m p ↔ pr ∈ subPairs m p) :=
  ⟨nodup_dedupPairs _, fun _ => mem_dedupPairs⟩

/-- C4 counterexample: the "Intro Week" label followed by the week-header
row "Week 1" with the exercise marker produces no ParsedWeek at all
(the header-skip rule consumes any row whose exercise column reads
"exercise" before week recognition can see it), so no week with type
"intro" or an "(Intro)" name is created. -/
theorem C4_week_type_cex :
    (parseMinMaxProgram "Sheet1" gridC4).blocks = [⟨1, "Block 1", []⟩] ∧
    ∀ b ∈ (parseMinMaxProgram "Sheet1" gridC4).blocks, b.weeks = [] := by
  decide

/-- C4 (amended): no week-header row is ever recognized — the week-
creation branch requires the exercise column to read "exercise", which
the earlier header-skip rule already consumed — so every ParsedWeek is
the auto-created "Week 1" of type "normal"; week types "intro"/"deload"
and the "(Intro)"/"(Deload)" suffixes are never produced. -/
theorem C4_week_type_amended (sheet : String) (grid : List Row) :
    ∀ b ∈ (parseMinMaxProgram sheet grid).blocks, ∀ w ∈ b.weeks,
      w.weekType = WeekType.normal ∧ w.name = "Week 1" ∧ w.weekNumber = 1 := by
  intro b hb w hw
  obtain ⟨h1, h2, h3, _⟩ := weekOk_parse sheet grid b hb w hw
  exact ⟨h3, h2, h1⟩

/-- C4 witness: the auto-created week of a lone "Upper" header is the
normal "Week 1". -/
theorem C4_week_type_amended_witness :
    (⟨1, "Week 1", WeekType.normal, [⟨"Upper", 1, []⟩]⟩ : ParsedWeek).weekType =
        WeekType.normal ∧
      (⟨1, "Week 1", WeekType.normal, [⟨"Upper", 1, []⟩]⟩ : ParsedWeek).name =
        "Week 1" ∧
      (⟨1, "Week 1", WeekType.normal, [⟨"Upper", 1, []⟩]⟩ : ParsedWeek).weekNumber = 1 :=
  C4_week_type_amended "Sheet1" gridC4w
    ⟨1, "Block 1", [⟨1, "Week 1", WeekType.normal, [⟨"Upper", 1, []⟩]⟩]⟩ (by decide)
    ⟨1, "Week 1", WeekType.normal, [⟨"Upper", 1, []⟩]⟩ (by decide)

/-- C5 counterexample: the warm-up extractor returns 7 on the range cell
"7-9" — the lower bound of a matched range is not coerced to 0 when it
exceeds 5, so the result is not always in 0..5. -/
theorem C5_warmup_cex :
    parseWarmupSets (Cell.str "7-9") = 7 ∧ ¬parseWarmupSets (Cell.str "7-9") ≤ 5 := by
  decide

/-- C5 (amended): on a cell matching the "N-M" pattern the extractor
returns the lower bound N unchecked (it may exceed 5); on every other
cell the result is a bare integer clamped into 0..5 or the default 0, so
only the non-range path is guaranteed to stay in 0..5. -/
theorem C5_warmup_amended (c : Cell) :
    match rangeSearch (cellToStrE c).data with
    | some r => parseWarmupSets c = r.1
    | none => parseWarmupSets c ≤ 5 := by
  by_cases hf : isFalsy c = true
  · rw [cellToStrE_falsy hf]
    show parseWarmupSets c ≤ 5
    unfold parseWarmupSets
    rw [if_pos hf]
    decide
  · rw [Bool.not_eq_true] at hf
    cases hs : rangeSearch (cellToStrE c).data with
    | some r =>
      show parseWarmupSets c = r.1
      unfold parseWarmupSets
      rw [hf, if_neg (by simp), hs]
    | none =>
      show parseWarmupSets c ≤ 5
      unfold parseWarmupSets
      rw [hf, if_neg (by simp), hs]
      cases hj : jsParseInt (cellToStrE c) with
      | none => decide
      | some n =>
        show (if 0 ≤ n ∧ n ≤ 5 then n.toNat else 0) ≤ 5
        split_ifs with h
        · omega
        · decide

/-- C6 counterexample: the prescription parsed from a row whose rep-range
cell reads "12-8" is appended with `repRangeMin = 12 > repRangeMax = 8` —
the claimed `min ≤ max` invariant does not hold. -/
theorem C6_prescription_bounds_cex :
    ¬(∀ b ∈ (parseMinMaxProgram "Sheet1" gridC6).blocks, ∀ w ∈ b.weeks,
        ∀ wo ∈ w.workouts, ∀ e ∈ wo.exercises,
          e.repRangeMin ≤ e.repRangeMax) := by
  decide

/-- C6 (amended): every appended prescription has working sets in 1..9,
RIR absent or in 0..4, rest defaulting to 120 seconds when the minutes
pattern does not match, and a warm-up count that is a natural number
(≥ 0); the rep-range bounds are exactly the values the rep-range
extractor produced for the cell, with neither `min ≤ max` nor positivity
enforced. -/
theorem C6_prescription_bounds_amended (name : String) (row : Row) :
    1 ≤ (mkParsedExercise name row).workingSets ∧
    (mkParsedExercise name row).workingSets ≤ 9 ∧
    (∀ r, (mkParsedExercise name row).rir = some r → 0 ≤ r ∧ r ≤ 4) ∧
    (restSearch (cellToStrE (getCell row 13)).data = none →
      (mkParsedExercise name row).restSeconds = 120) ∧
    ((mkParsedExercise name row).repRangeMin,
      (mkParsedExercise name row).repRangeMax) = parseRepRange (getCell row 6) := by
  refine ⟨(parseWorkingSets_bounds (getCell row 5)).1,
    (parseWorkingSets_bounds (getCell row 5)).2,
    parseRir_bounds (getCell row 11),
    fun h => parseRestSeconds_default (getCell row 13) h, rfl⟩

/-- C6 witness: on the "12-8" row the rest default and the bounds hold
concretely (RIR cell 2 is accepted). -/
theorem C6_prescription_bounds_amended_witness :
    (mkParsedExercise "Squat" rowC6).restSeconds = 120 ∧
    (0 ≤ (2 : Int) ∧ (2 : Int) ≤ 4) ∧
    1 ≤ (mkParsedExercise "Squat" rowC6).workingSets :=
  ⟨(C6_prescription_bounds_amended "Squat" rowC6).2.2.2.1 (by decide),
   (C6_prescription_bounds_amended "Squat" rowC6).2.2.1 2 (by decide),
   (C6_prescription_bounds_amended "Squat" rowC6).1⟩

/-- C7 counterexample: a row whose exercise column is "Squat" (no header
keyword), reached with a workout open and matching no earlier rule, is
dropped without appending — because its structural column holds the text
"xnote" — so the claim's conditions are met but no prescription is
appended (the parser state is unchanged and the workout stays empty). -/
theorem C7_exercise_row_cex :
    stC7.hasWorkout = true ∧ colCOf rowC7 ≠ "" ∧
    containsStr (jsToLower (colCOf rowC7)) "exercise" = false ∧
    containsStr (jsToLower (colCOf rowC7)) "load" = false ∧
    isNoiseRow rowC7 = false ∧ isHeaderRow rowC7 = false ∧
    isBlockHeader rowC7 = false ∧ isWeekLabel rowC7 = false ∧
    isRestDay rowC7 = false ∧ isWorkoutHeader rowC7 = false ∧
    processRow (some [Cell.empty, Cell.str "Upper"]) rowC7 stC7 = stC7 ∧
    (parseMinMaxProgram "Sheet1" gridC7).blocks.map
      (fun b => b.weeks.map (fun w => w.workouts.map
        (fun wo => wo.exercises.length))) = [[[0]]] := by
  decide

/-- C7 (amended): the exercise-row rule additionally requires the
structural-label column to be empty; under that extra condition — empty
label, nonempty exercise column without "exercise"/"load", open workout —
the row is classified as an exercise row and the extracted prescription
is appended to the current workout. -/
theorem C7_exercise_row_amended (prev : Option Row) (row : Row) (st : PState)
    (hB : colBOf row = "") (hC : colCOf row ≠ "")
    (hEx : containsStr (jsToLower (colCOf row)) "exercise" = false)
    (hLd : containsStr (jsToLower (colCOf row)) "load" = false)
    (hW : st.hasWorkout = true) :
    processRow prev row st =
      pushExercise (mkParsedExercise (colCOf row) row)
        { st with exOrder := st.exOrder + 1 } ∧
    lastWorkout? (processRow prev row st) =
      (lastWorkout? st).map
        (fun wo => { wo with exercises :=
          wo.exercises ++ [mkParsedExercise (colCOf row) row] }) := by
  have h := exerciseRow_processRow prev row st hB hC hEx hLd hW
  refine ⟨h, ?_⟩
  rw [h]
  exact lastWorkout?_pushExercise _ _

/-- C7 witness: a "Squat" row with empty label appends to the open
workout. -/
theorem C7_exercise_row_amended_witness :
    processRow none [Cell.empty, Cell.empty, Cell.str "Squat"] stC7 =
      pushExercise
        (mkParsedExercise (colCOf [Cell.empty, Cell.empty, Cell.str "Squat"])
          [Cell.empty, Cell.empty, Cell.str "Squat"])
        { stC7 with exOrder := stC7.exOrder + 1 } :=
  (C7_exercise_row_amended none [Cell.empty, Cell.empty, Cell.str "Squat"] stC7
    (by decide) (by decide) (by decide) (by decide) (by decide)).1

/-- C8 counterexample: a row labelled "Block 1 rest day" contains
"rest day" but is captured by the earlier block rule: it creates a new
ParsedBlock, so the parser state is not unchanged as claimed. -/
theorem C8_rest_day_cex :
    isRestDay rowC8 = true ∧
    (processRow none rowC8 initState).blocks = [⟨1, "Block 1 rest day", []⟩] ∧
    processRow none rowC8 initState ≠ initState := by
  decide

/-- C8 (amended): a row whose label contains "rest day" never creates a
workout (whatever else it matches); if the label matches neither the
block nor the week rule the state is unchanged entirely; and within every
parsed week the workouts' day numbers are exactly 1..n in arrival order,
so the workout following a rest-day row continues the sequence with no
gap or duplicate. -/
theorem C8_rest_day_amended :
    (∀ (prev : Option Row) (row : Row) (st : PState), isRestDay row = true →
      workoutCount (processRow prev row st) = workoutCount st) ∧
    (∀ (prev : Option Row) (row : Row) (st : PState), isRestDay row = true →
      containsStr (jsToLower (colBOf row)) "block" = false →
      containsStr (jsToLower (colBOf row)) "week" = false →
      processRow prev row st = st) ∧
    (∀ (sheet : String) (grid : List Row),
      ∀ b ∈ (parseMinMaxProgram sheet grid).blocks, ∀ w ∈ b.weeks,
        w.workouts.map (fun wo => wo.dayNumber) = List.range' 1 w.workouts.length) :=
  ⟨restDay_no_workout,
   restDay_skip,
   fun sheet grid b hb w hw =>
     daysFrom_map_eq _ 1 (weekOk_parse sheet grid b hb w hw).2.2.2⟩

/-- C8 witness: a plain "Rest Day" row leaves the post-workout state
untouched and adds no workout. -/
theorem C8_rest_day_amended_witness :
    workoutCount (processRow none rowC8b stC7) = workoutCount stC7 ∧
    processRow none rowC8b stC7 = stC7 :=
  ⟨C8_rest_day_amended.1 none rowC8b stC7 (by decide),
   C8_rest_day_amended.2.1 none rowC8b stC7 (by decide) (by decide) (by decide)⟩

/-- C9: the field extractors are total Lean functions and fall back to
the stated defaults on every falsy cell, and in particular: an empty
rep-range cell yields (8, 12), working-sets text "abc" yields 2, an
unmatchable rest cell yields 120 seconds, and an unmatched warm-up cell
yields 0. -/
theorem C9_extractor_defaults :
    (∀ c : Cell, isFalsy c = true →
      parseRepRange c = (8, 12) ∧ parseWarmupSets c = 0 ∧
      parseWorkingSets c = 2 ∧ parseRestSeconds c = 120) ∧
    parseRepRange Cell.empty = (8, 12) ∧
    parseWorkingSets (Cell.str "abc") = 2 ∧
    parseRestSeconds (Cell.str "3 hours") = 120 ∧
    parseWarmupSets (Cell.str "soon") = 0 := by
  refine ⟨fun c hf => ⟨?_, ?_, ?_, ?_⟩, by decide, by decide, by decide, by decide⟩
  · unfold parseRepRange
    rw [if_pos hf]
  · unfold parseWarmupSets
    rw [if_pos hf]
  · unfold parseWorkingSets
    rw [if_pos hf]
  · unfold parseRestSeconds
    rw [cellToStrE_falsy hf]
    rfl

/-- C9 witness: the numeric cell 0 is falsy and yields every default. -/
theorem C9_extractor_defaults_witness :
    parseRepRange (Cell.num 0) = (8, 12) ∧ parseWarmupSets (Cell.num 0) = 0 :=
  ⟨(C9_extractor_defaults.1 (Cell.num 0) (by decide)).1,
   (C9_extractor_defaults.1 (Cell.num 0) (by decide)).2.1⟩

/-- C10: for every workbook the parsed program's name is the constant
"Min-Max Program", its source is "Jeff Nippard", the persisted
description is "Imported from Excel", and only the weekly frequency
varies with the input — via the digits-then-x pattern in the first
sheet's name, defaulting to 4. -/
theorem C10_program_constants (sheetName : String) (grid : List Row)
    (userId : Option Nat) :
    (parseMinMaxProgram sheetName grid).name = "Min-Max Program" ∧
    (parseMinMaxProgram sheetName grid).source = "Jeff Nippard" ∧
    (parseMinMaxProgram sheetName grid).frequencyPerWeek =
      (freqSearch sheetName.data).getD 4 ∧
    programInsert (parseMinMaxProgram sheetName grid) userId =
      ⟨"Min-Max Program", "Imported from Excel",
        (freqSearch sheetName.data).getD 4, "Jeff Nippard", userId⟩ :=
  ⟨rfl, rfl, rfl, rfl⟩

end IronLog
